import Mathlib

/-!
Shallow embedding of the dimensional metrics-aggregation engine:
label values, metric identities and the metric store from
`src/dimensions.rs`, and snapshots plus the thread-local recording
context from `src/metrics.rs`.

Modelling conventions:
* `u64` / `usize` counters are modelled as `Nat` (the source performs only
  additions; a debug build of the source aborts on overflow, so `Nat`
  addition models the non-overflowing executions the spec talks about).
* A Rust `Hasher` is determined by the sequence of `write` / `write_u64`
  calls it receives, so hashing is modelled as the trace of those calls
  (`List WriteOp`); two values hash identically under every hasher iff
  their traces are equal.
* The `hashbrown` raw-entry map of `MetricStore` is modelled as an
  association list probed with the source's comparator closures.  The raw
  probe first filters by stored hash, but an entry accepted by the
  comparator always has the same hash trace as the probe key
  (`OwnedMetricName.eq_implies_hashOps_eq` below), so predicate lookup is
  an exact model of the probe.
* Rust panics (`Option::unwrap` on `None`) are modelled by returning
  `none` from the operation.
-/

namespace MetricProto

/-- A value usable as a metric label (`trait LabelValue`): it must produce
a stable `u64` surrogate (`as_u64`) plus a displayable form, and `boxed`
clones it.  In the embedding a label value is its surrogate together with
its display string; `boxed` is modelled by the value itself. -/
structure LabelValue where
  as_u64 : Nat
  display : String
deriving DecidableEq

/-- Borrowed metric identity (`MetricName<'tag>`): a static key plus five
optional `(label name, borrowed label value)` slots, modelled as a list
(the source fixes `LABELS = 5`). -/
structure MetricName where
  key : String
  labels : List (Option (String × LabelValue))
deriving DecidableEq

/-- Owned metric identity (`OwnedMetricName`): each populated slot stores
`(label name, u64 surrogate, boxed label value)`. -/
structure OwnedMetricName where
  key : String
  labels : List (Option (String × Nat × LabelValue))
deriving DecidableEq

/-- `MetricName::with_no_labels`: all five label slots empty. -/
def MetricName.with_no_labels (name : String) : MetricName :=
  { key := name, labels := List.replicate 5 none }

/-- `MetricName::with_one_label`: slot 0 populated, the rest empty. -/
def MetricName.with_one_label (name label_name : String) (label_value : LabelValue) :
    MetricName :=
  { key := name, labels := some (label_name, label_value) :: List.replicate 4 none }

/-- `MetricName::clone_into_owned`: convert to owned form, capturing each
populated label's `as_u64` surrogate and cloning (`boxed`) its value. -/
def MetricName.clone_into_owned (m : MetricName) : OwnedMetricName :=
  { key := m.key
    labels := m.labels.map (fun v => v.map (fun v => (v.1, v.2.as_u64, v.2))) }

/-- One call made to a `Hasher`: `Hasher::write` of some bytes (a UTF-8
string, since every hashed byte slice in the source is `str::as_bytes`)
or `Hasher::write_u64`. -/
inductive WriteOp where
  | bytes (s : String)
  | u64 (n : Nat)
deriving DecidableEq

/-- `compute_label_hash`: a populated label writes the label name bytes and
then the label value's `as_u64`; an empty slot writes nothing. -/
def compute_label_hash (state : List WriteOp) (label : Option (String × LabelValue)) :
    List WriteOp :=
  match label with
  | some (label_key, label_val) =>
      state ++ [WriteOp.bytes label_key, WriteOp.u64 label_val.as_u64]
  | none => state

/-- The per-slot step of `impl Hash for OwnedMetricName`: a populated slot
writes the label name bytes and the stored surrogate. -/
def compute_owned_label_hash (state : List WriteOp)
    (label : Option (String × Nat × LabelValue)) : List WriteOp :=
  match label with
  | some (label_key, h, _) => state ++ [WriteOp.bytes label_key, WriteOp.u64 h]
  | none => state

/-- `impl Hash for MetricName`: write the key bytes, then fold
`compute_label_hash` over the five label slots in order. -/
def MetricName.hashOps (m : MetricName) : List WriteOp :=
  m.labels.foldl compute_label_hash [WriteOp.bytes m.key]

/-- `impl Hash for OwnedMetricName`: write the key bytes, then each
populated slot's label name bytes and stored surrogate, in order. -/
def OwnedMetricName.hashOps (o : OwnedMetricName) : List WriteOp :=
  o.labels.foldl compute_owned_label_hash [WriteOp.bytes o.key]

/-- `impl PartialEq<MetricName> for &OwnedMetricName` (method `eq`): keys
must be equal, then slot by slot both labels are absent, or both present
with the stored surrogate equal to the borrowed value's `as_u64` and equal
label names.  The boxed (cloned) label value is never inspected. -/
def OwnedMetricName.eq (o : OwnedMetricName) (other : MetricName) : Bool :=
  if !(o.key == other.key) then false
  else
    (List.zip o.labels other.labels).all fun ab =>
      match ab with
      | (none, none) => true
      | (some a, some b) => a.2.1 == b.2.as_u64 && a.1 == b.1
      | _ => false

/-- `OwnedMetricName::same`: keys equal and, slot by slot, both labels
absent or both present with equal label names and equal stored
surrogates.  The boxed label value is never inspected. -/
def OwnedMetricName.same (a b : OwnedMetricName) : Bool :=
  a.key == b.key &&
    (List.zip a.labels b.labels).all fun xy =>
      match xy with
      | (some x, some y) => x.1 == y.1 && x.2.1 == y.2.1
      | (none, none) => true
      | _ => false

/-- `MetricStore`: a map from owned identities to `u64` counts, modelled
as an association list (see the module docstring for why predicate lookup
models the raw hash probe exactly). -/
structure MetricStore where
  buf : List (OwnedMetricName × Nat)
deriving DecidableEq

/-- The probe-and-mutate core of `MetricStore::update`: bump the entry
accepted by the comparator `|q| q.eq(key)`, or insert
`(key.clone_into_owned(), val)` on a miss. -/
def updateEntries : List (OwnedMetricName × Nat) → MetricName → Nat →
    List (OwnedMetricName × Nat)
  | [], key, val => [(key.clone_into_owned, val)]
  | (q, c) :: rest, key, val =>
      if OwnedMetricName.eq q key then (q, c + val) :: rest
      else (q, c) :: updateEntries rest key val

/-- `MetricStore::update`. -/
def MetricStore.update (s : MetricStore) (key : MetricName) (val : Nat) : MetricStore :=
  ⟨updateEntries s.buf key val⟩

/-- The per-entry step of `MetricStore::merge`: probe with the comparator
`|q| q.same(&k)`; on a miss insert `(k, 0)` and then add `v` to it, on a
hit add `v` to the matching entry's count. -/
def mergeEntry : List (OwnedMetricName × Nat) → OwnedMetricName → Nat →
    List (OwnedMetricName × Nat)
  | [], k, v => [(k, 0 + v)]
  | (q, c) :: rest, k, v =>
      if OwnedMetricName.same q k then (q, c + v) :: rest
      else (q, c) :: mergeEntry rest k v

/-- `MetricStore::merge`: fold every entry of `other` into this store. -/
def MetricStore.merge (s other : MetricStore) : MetricStore :=
  ⟨other.buf.foldl (fun acc e => mergeEntry acc e.1 e.2) s.buf⟩

/-- `MetricStore::get_counter`: probe with `|q| q.eq(key)` and return the
matching entry's count, if any. -/
def MetricStore.get_counter (s : MetricStore) (key : MetricName) : Option Nat :=
  (s.buf.find? (fun e => OwnedMetricName.eq e.1 key)).map (fun e => e.2)

/-- `MetricStore::get_counter_all_dim`: linear scan; for every entry whose
key matches, add its count into the accumulator, first materialising it as
`Some(0)` (`res.get_or_insert(0)`). -/
def MetricStore.get_counter_all_dim (s : MetricStore) (key : String) : Option Nat :=
  s.buf.foldl
    (fun res e => if e.1.key == key then some (res.getD 0 + e.2) else res) none

/-- `Snapshot`: a metric store plus the number of increments received. -/
structure Snapshot where
  store : MetricStore
  cnt : Nat
deriving DecidableEq

/-- `Snapshot::new`. -/
def Snapshot.new : Snapshot := ⟨⟨[]⟩, 0⟩

/-- `Snapshot::is_empty`. -/
def Snapshot.is_empty (s : Snapshot) : Bool := s.cnt == 0

/-- `Snapshot::take` (`mem::replace(self, Self::new())`): returns the
previous state paired with the fresh state left in place. -/
def Snapshot.take (s : Snapshot) : Snapshot × Snapshot := (s, Snapshot.new)

/-- A metric descriptor decomposed by `Metric::into_metric`: a borrowed
identity and a `u64` delta. -/
def Metric : Type := MetricName × Nat

/-- `Counter(key, v)` under `into_metric`. -/
def Counter (key : String) (v : Nat) : Metric := (MetricName.with_no_labels key, v)

/-- `OneDimensionCounter(key, dest, v)` under `into_metric`. -/
def OneDimensionCounter (key : String) (dest : LabelValue) (v : Nat) : Metric :=
  (MetricName.with_one_label key "dest" dest, v)

/-- `Snapshot::increment`: update the store with the metric's identity and
delta, bump `cnt`, and report whether `cnt` reached the flush threshold
(`50_000`). -/
def Snapshot.increment (s : Snapshot) (metric : Metric) : Snapshot × Bool :=
  let s' : Snapshot := ⟨s.store.update metric.1 metric.2, s.cnt + 1⟩
  (s', decide (s'.cnt ≥ 50000))

/-- `Snapshot::merge`. -/
def Snapshot.merge (s other : Snapshot) : Snapshot :=
  ⟨s.store.merge other.store, s.cnt⟩

/-- `Snapshot::get`. -/
def Snapshot.get (s : Snapshot) (key : MetricName) : Option Nat :=
  s.store.get_counter key

/-- `Snapshot::get_all_dims`. -/
def Snapshot.get_all_dims (s : Snapshot) (key : String) : Option Nat :=
  s.store.get_counter_all_dim key

/-- `MetricsContext`: thread-local holder of the live snapshot and the
channel sender.  The sender is modelled as the list of snapshots sent on
it so far. -/
structure MetricsContext where
  snapshot : Option Snapshot
  tx : Option (List Snapshot)

/-- `MetricsContext::new`: both holders empty. -/
def MetricsContext.new : MetricsContext := ⟨none, none⟩

/-- `MetricsContext::take_snapshot`: `unwrap`s the snapshot holder (a
panic, modelled as `none`, when not connected), then `take`s it. -/
def MetricsContext.take_snapshot (c : MetricsContext) :
    Option (Snapshot × MetricsContext) :=
  c.snapshot.map fun s => ((s.take).1, ⟨some (s.take).2, c.tx⟩)

/-- `MetricsContext::increment`: `unwrap`s the snapshot holder (panic,
modelled as `none`, when not connected); on a threshold signal with a
sender present, `take`s the snapshot and sends the detached batch. -/
def MetricsContext.increment (c : MetricsContext) (m : Metric) :
    Option MetricsContext :=
  match c.snapshot with
  | none => none
  | some s =>
      let p := s.increment m
      if p.2 && c.tx.isSome then
        some ⟨some ((p.1.take).2), c.tx.map (fun msgs => msgs ++ [(p.1.take).1])⟩
      else
        some ⟨some p.1, c.tx⟩

/-- `MetricsContext::connect`: install the sender and a fresh snapshot. -/
def MetricsContext.connect (_c : MetricsContext) (tx : List Snapshot) : MetricsContext :=
  ⟨some Snapshot.new, some tx⟩

/-- One successful operation on a `MetricsContext` (a panicking call
produces no successor state). -/
inductive Step : MetricsContext → MetricsContext → Prop
  | conn (c : MetricsContext) (ch : List Snapshot) : Step c (c.connect ch)
  | inc (c : MetricsContext) (m : Metric) (c' : MetricsContext) :
      c.increment m = some c' → Step c c'
  | take (c : MetricsContext) (out : Snapshot) (c' : MetricsContext) :
      c.take_snapshot = some (out, c') → Step c c'

/-- Zero or more successful operations. -/
inductive Reachable : MetricsContext → MetricsContext → Prop
  | refl (c : MetricsContext) : Reachable c c
  | tail {a b c : MetricsContext} : Reachable a b → Step b c → Reachable a c

/-- Replace every boxed (cloned) label value of an owned identity, keeping
the label names and stored surrogates. -/
def OwnedMetricName.mapBoxed (o : OwnedMetricName) (f : LabelValue → LabelValue) :
    OwnedMetricName :=
  ⟨o.key, o.labels.map fun l => l.map fun x => (x.1, x.2.1, f x.2.2)⟩

/-- `n` consecutive `Snapshot::increment` calls with the same metric. -/
def incrementN (s : Snapshot) (m : Metric) : Nat → Snapshot
  | 0 => s
  | n + 1 => ((incrementN s m n).increment m).1

/-- The count recorded for identity `n` in an entry list: the sum of the
counts of the entries weakly equal (`same`) to `n`.  The store's insertion
discipline keeps at most one entry per `same`-class, so this sum is that
entry's count. -/
def countL (l : List (OwnedMetricName × Nat)) (n : OwnedMetricName) : Nat :=
  ((l.filter (fun e => OwnedMetricName.same e.1 n)).map (fun e => e.2)).sum

/-- The count recorded for identity `n` in a store. -/
def MetricStore.countOf (s : MetricStore) (n : OwnedMetricName) : Nat :=
  countL s.buf n

lemma foldl_compute_owned_label_hash_map (l : List (Option (String × LabelValue)))
    (init : List WriteOp) :
    (l.map (fun v => v.map (fun v => (v.1, v.2.as_u64, v.2)))).foldl
        compute_owned_label_hash init =
      l.foldl compute_label_hash init := by
  induction l generalizing init with
  | nil => rfl
  | cons a l ih =>
      cases a with
      | none => simpa [compute_label_hash, compute_owned_label_hash] using ih init
      | some p =>
          simpa [compute_label_hash, compute_owned_label_hash] using
            ih (init ++ [WriteOp.bytes p.1, WriteOp.u64 p.2.as_u64])

lemma foldl_compute_label_hash_eq_append (l : List (Option (String × LabelValue)))
    (init : List WriteOp) :
    l.foldl compute_label_hash init =
      init ++ l.foldr (fun lab acc =>
        match lab with
        | some (label_key, v) => WriteOp.bytes label_key :: WriteOp.u64 v.as_u64 :: acc
        | none => acc) [] := by
  induction l generalizing init with
  | nil => simp
  | cons a l ih =>
      cases a with
      | none => simpa [compute_label_hash] using ih init
      | some p =>
          simp [compute_label_hash, ih (init ++ [WriteOp.bytes p.1, WriteOp.u64 p.2.as_u64]),
            List.append_assoc]

/-- C1: for every metric identity, the borrowed identity and the owned
identity produced by `clone_into_owned` issue the same sequence of hasher
writes (hence hash identically under the same hasher): the key bytes
first, then, for each populated label slot in order, the label name bytes
followed by the label value's `u64` surrogate; empty slots contribute
nothing. -/
theorem C1_hash_consistency (m : MetricName) :
    (MetricName.clone_into_owned m).hashOps = m.hashOps ∧
    m.hashOps = WriteOp.bytes m.key ::
      m.labels.foldr (fun lab acc =>
        match lab with
        | some (label_key, v) => WriteOp.bytes label_key :: WriteOp.u64 v.as_u64 :: acc
        | none => acc) [] := by
  constructor
  · unfold OwnedMetricName.hashOps MetricName.hashOps MetricName.clone_into_owned
    exact foldl_compute_owned_label_hash_map m.labels [WriteOp.bytes m.key]
  · unfold MetricName.hashOps
    simpa using foldl_compute_label_hash_eq_append m.labels [WriteOp.bytes m.key]

lemma eq_clone_self (m : MetricName) :
    OwnedMetricName.eq m.clone_into_owned m = true := by
  unfold OwnedMetricName.eq MetricName.clone_into_owned
  simp only [Bool.not_eq_true']
  rw [if_neg (by simp)]
  induction m.labels with
  | nil => rfl
  | cons a l ih => cases a <;> simpa using ih

lemma updateEntries_miss (l : List (OwnedMetricName × Nat)) (key : MetricName)
    (val : Nat) (h : ∀ e ∈ l, OwnedMetricName.eq e.1 key = false) :
    updateEntries l key val = l ++ [(key.clone_into_owned, val)] := by
  induction l with
  | nil => rfl
  | cons e rest ih =>
      obtain ⟨q, c⟩ := e
      have he : OwnedMetricName.eq q key = false := by
        simpa using h (q, c) (List.mem_cons_self _ _)
      simp only [updateEntries, he, Bool.false_eq_true, if_false]
      rw [ih (fun e hm => h e (List.mem_cons_of_mem _ hm))]
      simp

lemma updateEntries_hit (l : List (OwnedMetricName × Nat)) (key : MetricName)
    (val : Nat) :
    ∀ i q c, l.get? i = some (q, c) →
      (∀ e ∈ l.take i, OwnedMetricName.eq e.1 key = false) →
      OwnedMetricName.eq q key = true →
      updateEntries l key val = l.set i (q, c + val) := by
  induction l with
  | nil => intro i q c hget; simp at hget
  | cons e rest ih =>
      intro i q c hget hbefore heq
      cases e with
      | mk q0 c0 =>
          cases i with
          | zero =>
              simp only [List.get?] at hget
              cases hget
              simp [updateEntries, heq]
          | succ i =>
              have h0 : OwnedMetricName.eq q0 key = false := by
                have := hbefore (q0, c0)
                simp [List.take] at this
                exact this
              simp only [List.get?] at hget
              have hb : ∀ e ∈ rest.take i, OwnedMetricName.eq e.1 key = false := by
                intro e hm
                exact hbefore e (by simp [List.take, hm])
              simp [updateEntries, h0, ih i q c hget hb heq, List.set]

lemma updateEntries_filter (l : List (OwnedMetricName × Nat)) (key : MetricName)
    (val : Nat) :
    (updateEntries l key val).filter (fun e => !OwnedMetricName.eq e.1 key) =
      l.filter (fun e => !OwnedMetricName.eq e.1 key) := by
  induction l with
  | nil => simp [updateEntries, List.filter, eq_clone_self]
  | cons e rest ih =>
      cases e with
      | mk q c =>
          by_cases hq : OwnedMetricName.eq q key = true
          · simp [updateEntries, hq, List.filter]
          · have hq' : OwnedMetricName.eq q key = false := by
              simpa using hq
            simp [updateEntries, hq', List.filter, ih]

/-- C2: `MetricStore::update` with a borrowed identity `k` and delta `d`
inserts `k.clone_into_owned()` with initial count `d` when no owned entry
is weakly equal to `k`; when the probe hits an entry weakly equal to `k`
it adds `d` to that entry's count in place; and entries not weakly equal
to `k` are unchanged. -/
theorem C2_update (s : MetricStore) (k : MetricName) (d : Nat) :
    ((∀ e ∈ s.buf, OwnedMetricName.eq e.1 k = false) →
      (s.update k d).buf = s.buf ++ [(k.clone_into_owned, d)]) ∧
    (∀ i q c, s.buf.get? i = some (q, c) →
      (∀ e ∈ s.buf.take i, OwnedMetricName.eq e.1 k = false) →
      OwnedMetricName.eq q k = true →
      (s.update k d).buf = s.buf.set i (q, c + d)) ∧
    ((s.update k d).buf.filter (fun e => !OwnedMetricName.eq e.1 k) =
      s.buf.filter (fun e => !OwnedMetricName.eq e.1 k)) :=
  ⟨fun h => updateEntries_miss s.buf k d h,
   fun i q c hget hb heq => updateEntries_hit s.buf k d i q c hget hb heq,
   updateEntries_filter s.buf k d⟩

/-- Witness for C2 at concrete inputs: a miss on the empty store appends
the converted entry; a hit on a singleton store bumps its count. -/
theorem C2_update_witness :
    ((MetricStore.mk []).update (MetricName.with_no_labels "foo") 5).buf =
      [] ++ [((MetricName.with_no_labels "foo").clone_into_owned, 5)] ∧
    ((MetricStore.mk [((MetricName.with_no_labels "foo").clone_into_owned, 2)]).update
        (MetricName.with_no_labels "foo") 5).buf =
      [((MetricName.with_no_labels "foo").clone_into_owned, 2)].set 0
        ((MetricName.with_no_labels "foo").clone_into_owned, 2 + 5) :=
  ⟨(C2_update (MetricStore.mk []) (MetricName.with_no_labels "foo") 5).1 (by simp),
   (C2_update (MetricStore.mk [((MetricName.with_no_labels "foo").clone_into_owned, 2)])
      (MetricName.with_no_labels "foo") 5).2.1 0
      ((MetricName.with_no_labels "foo").clone_into_owned) 2 rfl (by simp)
      (eq_clone_self (MetricName.with_no_labels "foo"))⟩

lemma zip_all_eq_iff_forall₂ :
    ∀ (l₁ : List (Option (String × Nat × LabelValue)))
      (l₂ : List (Option (String × LabelValue))), l₁.length = l₂.length →
      (((l₁.zip l₂).all fun ab =>
          match ab with
          | (none, none) => true
          | (some a, some b) => a.2.1 == b.2.as_u64 && a.1 == b.1
          | _ => false) = true ↔
        List.Forall₂ (fun a b =>
          match a, b with
          | none, none => True
          | some a, some b => a.1 = b.1 ∧ a.2.1 = b.2.as_u64
          | _, _ => False) l₁ l₂)
  | [], [], _ => by simp
  | [], _ :: _, h => by simp at h
  | _ :: _, [], h => by simp at h
  | a :: l₁, b :: l₂, h => by
      have ih := zip_all_eq_iff_forall₂ l₁ l₂ (by simpa using h)
      cases a <;> cases b <;>
        simp [List.forall₂_cons, ih, And.comm, and_assoc]

lemma zip_all_same_iff_forall₂ :
    ∀ (l₁ l₂ : List (Option (String × Nat × LabelValue))), l₁.length = l₂.length →
      (((l₁.zip l₂).all fun xy =>
          match xy with
          | (some x, some y) => x.1 == y.1 && x.2.1 == y.2.1
          | (none, none) => true
          | _ => false) = true ↔
        List.Forall₂ (fun x y =>
          match x, y with
          | none, none => True
          | some x, some y => x.1 = y.1 ∧ x.2.1 = y.2.1
          | _, _ => False) l₁ l₂)
  | [], [], _ => by simp
  | [], _ :: _, h => by simp at h
  | _ :: _, [], h => by simp at h
  | x :: l₁, y :: l₂, h => by
      have ih := zip_all_same_iff_forall₂ l₁ l₂ (by simpa using h)
      cases x <;> cases y <;> simp [List.forall₂_cons, ih]

lemma all_zip_map_left {α α' β : Type} (g : α → α') (p : α' × β → Bool)
    (q : α × β → Bool) (h : ∀ a b, p (g a, b) = q (a, b)) :
    ∀ (l₁ : List α) (l₂ : List β), ((l₁.map g).zip l₂).all p = (l₁.zip l₂).all q
  | [], l₂ => by cases l₂ <;> rfl
  | _ :: _, [] => rfl
  | a :: l₁, b :: l₂ => by
      simp only [List.map_cons, List.zip_cons_cons, List.all_cons, h,
        all_zip_map_left g p q h l₁ l₂]

lemma all_zip_map_right {α β β' : Type} (g : β → β') (p : α × β' → Bool)
    (q : α × β → Bool) (h : ∀ a b, p (a, g b) = q (a, b)) :
    ∀ (l₁ : List α) (l₂ : List β), (l₁.zip (l₂.map g)).all p = (l₁.zip l₂).all q
  | [], l₂ => by cases l₂ <;> rfl
  | _ :: _, [] => rfl
  | a :: l₁, b :: l₂ => by
      simp only [List.map_cons, List.zip_cons_cons, List.all_cons, h,
        all_zip_map_right g p q h l₁ l₂]

lemma eq_mapBoxed (o : OwnedMetricName) (m : MetricName) (f : LabelValue → LabelValue) :
    OwnedMetricName.eq (o.mapBoxed f) m = OwnedMetricName.eq o m := by
  unfold OwnedMetricName.eq OwnedMetricName.mapBoxed
  congr 1
  exact all_zip_map_left _ _ _ (fun a b => by cases a <;> cases b <;> rfl) o.labels m.labels

lemma same_mapBoxed_left (o b : OwnedMetricName) (f : LabelValue → LabelValue) :
    OwnedMetricName.same (o.mapBoxed f) b = OwnedMetricName.same o b := by
  unfold OwnedMetricName.same OwnedMetricName.mapBoxed
  congr 1
  exact all_zip_map_left _ _ _ (fun a b => by cases a <;> cases b <;> rfl) o.labels b.labels

lemma same_mapBoxed_right (o b : OwnedMetricName) (f : LabelValue → LabelValue) :
    OwnedMetricName.same o (b.mapBoxed f) = OwnedMetricName.same o b := by
  unfold OwnedMetricName.same OwnedMetricName.mapBoxed
  congr 1
  exact all_zip_map_right _ _ _ (fun a b => by cases a <;> cases b <;> rfl) o.labels b.labels

/-- C3: the store's two comparators agree with the weak-equality
description: `OwnedMetricName::eq` (owned vs borrowed) holds iff the keys
are equal and, slot by slot, each label is absent in both or present in
both with equal label name and equal numeric surrogate (`as_u64` on the
borrowed side); `OwnedMetricName::same` (owned vs owned) is the analogous
slotwise comparison of names and stored surrogates; and replacing the
boxed (cloned) label values arbitrarily changes neither comparator, i.e.
the cloned value / display string is never consulted. -/
theorem C3_weak_equality (o b : OwnedMetricName) (m : MetricName)
    (f : LabelValue → LabelValue) :
    (o.labels.length = m.labels.length →
      (OwnedMetricName.eq o m = true ↔
        o.key = m.key ∧
          List.Forall₂ (fun a bl =>
            match a, bl with
            | none, none => True
            | some a, some bl => a.1 = bl.1 ∧ a.2.1 = bl.2.as_u64
            | _, _ => False) o.labels m.labels)) ∧
    (o.labels.length = b.labels.length →
      (OwnedMetricName.same o b = true ↔
        o.key = b.key ∧
          List.Forall₂ (fun x y =>
            match x, y with
            | none, none => True
            | some x, some y => x.1 = y.1 ∧ x.2.1 = y.2.1
            | _, _ => False) o.labels b.labels)) ∧
    OwnedMetricName.eq (o.mapBoxed f) m = OwnedMetricName.eq o m ∧
    OwnedMetricName.same (o.mapBoxed f) b = OwnedMetricName.same o b ∧
    OwnedMetricName.same o (b.mapBoxed f) = OwnedMetricName.same o b := by
  refine ⟨fun hlen => ?_, fun hlen => ?_, eq_mapBoxed o m f,
    same_mapBoxed_left o b f, same_mapBoxed_right o b f⟩
  · unfold OwnedMetricName.eq
    by_cases hkey : o.key = m.key
    · rw [if_neg (by simp [hkey]), zip_all_eq_iff_forall₂ o.labels m.labels hlen]
      simp [hkey]
    · rw [if_pos (by simp [hkey])]
      simp [hkey]
  · unfold OwnedMetricName.same
    rw [Bool.and_eq_true, zip_all_same_iff_forall₂ o.labels b.labels hlen]
    simp [beq_iff_eq]

/-- Witness for C3 at concrete inputs: a one-label identity is weakly
equal to its owned conversion, and an owned no-label identity is `same`
as itself, both obtained through the characterisation. -/
theorem C3_weak_equality_witness :
    OwnedMetricName.eq ((MetricName.with_one_label "foo" "h" ⟨1, "H2"⟩).clone_into_owned)
      (MetricName.with_one_label "foo" "h" ⟨1, "H2"⟩) = true ∧
    OwnedMetricName.same ((MetricName.with_no_labels "bar").clone_into_owned)
      ((MetricName.with_no_labels "bar").clone_into_owned) = true :=
  ⟨((C3_weak_equality ((MetricName.with_one_label "foo" "h" ⟨1, "H2"⟩).clone_into_owned)
        ((MetricName.with_no_labels "bar").clone_into_owned)
        (MetricName.with_one_label "foo" "h" ⟨1, "H2"⟩) id).1 rfl).mpr
      ⟨rfl, .cons ⟨rfl, rfl⟩ (.cons trivial (.cons trivial (.cons trivial
        (.cons trivial .nil))))⟩,
   ((C3_weak_equality ((MetricName.with_no_labels "bar").clone_into_owned)
        ((MetricName.with_no_labels "bar").clone_into_owned)
        (MetricName.with_one_label "foo" "h" ⟨1, "H2"⟩) id).2.1 rfl).mpr
      ⟨rfl, .cons trivial (.cons trivial (.cons trivial (.cons trivial
        (.cons trivial .nil))))⟩⟩

lemma foldl_all_dim_some (p : OwnedMetricName × Nat → Bool)
    (l : List (OwnedMetricName × Nat)) (a : Nat) :
    l.foldl (fun res e => if p e then some (res.getD 0 + e.2) else res) (some a) =
      some (a + ((l.filter p).map (fun e => e.2)).sum) := by
  induction l generalizing a with
  | nil => simp
  | cons e rest ih =>
      by_cases hk : p e = true
      · simp [hk, ih, List.filter_cons, Nat.add_assoc]
      · simp only [Bool.not_eq_true] at hk
        simp [hk, ih, List.filter_cons]

lemma foldl_all_dim_none (p : OwnedMetricName × Nat → Bool)
    (l : List (OwnedMetricName × Nat)) :
    l.foldl (fun res e => if p e then some (res.getD 0 + e.2) else res) none =
      if l.filter p = [] then none
      else some (((l.filter p).map (fun e => e.2)).sum) := by
  induction l with
  | nil => simp
  | cons e rest ih =>
      rw [List.foldl_cons, List.filter_cons]
      by_cases hk : p e = true
      · simp [hk, foldl_all_dim_some]
      · simp only [Bool.not_eq_true] at hk
        simp only [hk, Bool.false_eq_true, if_false]
        exact ih

/-- C7: `get_counter_all_dim(key)` returns `Some` of the sum of the counts
of all entries whose key equals `key` (labels ignored) and `None` when no
entry has that key; and `get_counter` of a borrowed identity returns
`None` exactly when no stored entry is weakly equal to it. -/
theorem C7_lookup_absence (s : MetricStore) (k : String) (m : MetricName) :
    (s.get_counter_all_dim k =
      if s.buf.filter (fun e => e.1.key == k) = [] then none
      else some (((s.buf.filter (fun e => e.1.key == k)).map (fun e => e.2)).sum)) ∧
    (s.get_counter m = none ↔ ∀ e ∈ s.buf, OwnedMetricName.eq e.1 m = false) := by
  constructor
  · exact foldl_all_dim_none (fun e => e.1.key == k) s.buf
  · simp [MetricStore.get_counter, List.find?_eq_none]

lemma find?_append_none {α : Type} (p : α → Bool) (l₁ l₂ : List α)
    (h : ∀ e ∈ l₁, p e = false) : (l₁ ++ l₂).find? p = l₂.find? p := by
  induction l₁ with
  | nil => rfl
  | cons a rest ih =>
      have ha := h a (List.mem_cons_self _ _)
      simp only [List.cons_append, List.find?, ha]
      exact ih (fun e hm => h e (List.mem_cons_of_mem _ hm))

/-- C10: updating with delta `0` an identity that has no weakly-equal
entry still inserts the converted entry with count `0`; afterwards
`get_counter` of that identity is `Some 0` (where before it was `None`)
and `get_counter_all_dim` of its key is `Some` of the key's sum (the new
entry is counted, contributing `0`), so a key recorded with a zero delta
is observably different from one never recorded. -/
theorem C10_zero_delta (s : MetricStore) (m : MetricName)
    (h : ∀ e ∈ s.buf, OwnedMetricName.eq e.1 m = false) :
    s.get_counter m = none ∧
    (s.update m 0).buf = s.buf ++ [(m.clone_into_owned, 0)] ∧
    (s.update m 0).get_counter m = some 0 ∧
    (s.update m 0).get_counter_all_dim m.key =
      some (((s.buf.filter (fun e => e.1.key == m.key)).map (fun e => e.2)).sum) := by
  have hbuf : (s.update m 0).buf = s.buf ++ [(m.clone_into_owned, 0)] :=
    updateEntries_miss s.buf m 0 h
  refine ⟨?_, hbuf, ?_, ?_⟩
  · unfold MetricStore.get_counter
    simp only [Option.map_eq_none', List.find?_eq_none]
    intro x hx
    simp [h x hx]
  · unfold MetricStore.get_counter
    rw [hbuf, find?_append_none _ s.buf _ h]
    simp [List.find?, eq_clone_self]
  · unfold MetricStore.get_counter_all_dim
    rw [hbuf, foldl_all_dim_none]
    have hkey : (m.clone_into_owned.key == m.key) = true := by
      simp [MetricName.clone_into_owned]
    rw [List.filter_append]
    simp [List.filter_cons, hkey]

/-- Witness for C10: on the empty store, a zero-delta update of a
no-label identity makes its counter `Some 0` and its all-dimension sum
`Some 0`, where both were `None` before. -/
theorem C10_zero_delta_witness :
    (MetricStore.mk []).get_counter (MetricName.with_no_labels "foo") = none ∧
    ((MetricStore.mk []).update (MetricName.with_no_labels "foo") 0).buf =
      [] ++ [((MetricName.with_no_labels "foo").clone_into_owned, 0)] ∧
    ((MetricStore.mk []).update (MetricName.with_no_labels "foo") 0).get_counter
      (MetricName.with_no_labels "foo") = some 0 ∧
    ((MetricStore.mk []).update (MetricName.with_no_labels "foo") 0).get_counter_all_dim
      (MetricName.with_no_labels "foo").key =
      some ((((MetricStore.mk [] : MetricStore).buf.filter
        (fun e => e.1.key == (MetricName.with_no_labels "foo").key)).map
          (fun e => e.2)).sum) :=
  C10_zero_delta (MetricStore.mk []) (MetricName.with_no_labels "foo") (by simp)

lemma incrementN_cnt (s : Snapshot) (m : Metric) :
    ∀ n, (incrementN s m n).cnt = s.cnt + n
  | 0 => rfl
  | n + 1 => by
      simp [incrementN, Snapshot.increment, incrementN_cnt s m n, Nat.add_assoc]

lemma incrementN_store (k : MetricName) (d : Nat) :
    ∀ n, (incrementN Snapshot.new (k, d) (n + 1)).store.buf =
      [(k.clone_into_owned, (n + 1) * d)]
  | 0 => by
      show ((Snapshot.new.increment (k, d)).1).store.buf = _
      simp [Snapshot.increment, Snapshot.new, MetricStore.update, updateEntries]
  | n + 1 => by
      have ih := incrementN_store k d n
      show updateEntries (incrementN Snapshot.new (k, d) (n + 1)).store.buf k d = _
      rw [ih]
      simp [updateEntries, eq_clone_self, Nat.succ_mul]

/-- C5: starting from a fresh snapshot, incrementing `K ≥ 1` times with a
fixed metric `(m, d)` and then calling `take` returns the accumulated
snapshot, whose `get_all_dims(m.key)` is `Some (K * d)`, and leaves a
fresh snapshot in place that is empty and answers `None`. -/
theorem C5_batch_round_trip (m : MetricName) (d K : Nat) (hK : 1 ≤ K) :
    ((incrementN Snapshot.new (m, d) K).take).1.get_all_dims m.key = some (K * d) ∧
    ((incrementN Snapshot.new (m, d) K).take).2.is_empty = true ∧
    ((incrementN Snapshot.new (m, d) K).take).2.get_all_dims m.key = none := by
  refine ⟨?_, rfl, rfl⟩
  obtain ⟨n, rfl⟩ : ∃ n, K = n + 1 := ⟨K - 1, (Nat.succ_pred_eq_of_pos hK).symm⟩
  show (incrementN Snapshot.new (m, d) (n + 1)).get_all_dims m.key = _
  unfold Snapshot.get_all_dims MetricStore.get_counter_all_dim
  rw [incrementN_store m d n]
  simp [MetricName.clone_into_owned]

/-- Witness for C5: three increments of delta 2 on key `"foo"`. -/
theorem C5_batch_round_trip_witness :
    ((incrementN Snapshot.new (MetricName.with_no_labels "foo", 2) 3).take).1.get_all_dims
        (MetricName.with_no_labels "foo").key = some (3 * 2) ∧
    ((incrementN Snapshot.new (MetricName.with_no_labels "foo", 2) 3).take).2.is_empty =
        true ∧
    ((incrementN Snapshot.new (MetricName.with_no_labels "foo", 2) 3).take).2.get_all_dims
        (MetricName.with_no_labels "foo").key = none :=
  C5_batch_round_trip (MetricName.with_no_labels "foo") 2 3 (by decide)

/-- C6: `Snapshot::increment` bumps `cnt` by one and returns whether the
new `cnt` reached the flush threshold `50_000`; consequently, on a fresh
snapshot with no intervening `take`, the `(n+1)`-th call returns `true`
exactly when `n + 1 ≥ 50_000`: the call that makes the count reach the
threshold signals the flush and every earlier call returns `false`. -/
theorem C6_threshold (s : Snapshot) (m : Metric) (n : Nat) :
    (s.increment m).1.cnt = s.cnt + 1 ∧
    (s.increment m).2 = decide (s.cnt + 1 ≥ 50000) ∧
    ((incrementN Snapshot.new m n).increment m).2 = decide (n + 1 ≥ 50000) := by
  refine ⟨rfl, rfl, ?_⟩
  show decide ((incrementN Snapshot.new m n).cnt + 1 ≥ 50000) = _
  rw [incrementN_cnt]
  simp [Snapshot.new]

lemma step_snapshot_isSome {c c' : MetricsContext} (h : Step c c') :
    c'.snapshot.isSome = true := by
  cases h with
  | conn ch => rfl
  | inc m c' hinc =>
      cases hc : c.snapshot with
      | none =>
          simp only [MetricsContext.increment, hc] at hinc
          exact Option.noConfusion hinc
      | some s =>
          simp only [MetricsContext.increment, hc] at hinc
          by_cases hf : ((s.increment m).2 && c.tx.isSome) = true
          · rw [if_pos hf] at hinc
            simp only [Option.some.injEq] at hinc
            rw [← hinc]
            rfl
          · rw [if_neg hf] at hinc
            simp only [Option.some.injEq] at hinc
            rw [← hinc]
            rfl
  | take out c' htake =>
      unfold MetricsContext.take_snapshot at htake
      rw [Option.map_eq_some'] at htake
      obtain ⟨s, _, hf⟩ := htake
      have h2 : c' = ⟨some (s.take).2, c.tx⟩ := (congrArg Prod.snd hf).symm
      rw [h2]
      rfl

lemma increment_isSome_of_connected {c : MetricsContext}
    (h : c.snapshot.isSome = true) (m : Metric) : (c.increment m).isSome = true := by
  obtain ⟨s, hs⟩ := Option.isSome_iff_exists.mp h
  simp only [MetricsContext.increment, hs]
  by_cases hf : ((s.increment m).2 && c.tx.isSome) = true
  · rw [if_pos hf]; rfl
  · rw [if_neg hf]; rfl

/-- C8: `increment` and `take_snapshot` on a context on which `connect`
was never called panic (modelled as `none`) instead of recording or
returning a value; and from any state reachable after a `connect`,
`increment` never hits that failure. -/
theorem C8_connect_contract (m m' : Metric) (ch : List Snapshot) (c : MetricsContext) :
    MetricsContext.new.increment m = none ∧
    MetricsContext.new.take_snapshot = none ∧
    (Reachable (MetricsContext.new.connect ch) c →
      (c.increment m').isSome = true) := by
  refine ⟨rfl, rfl, fun hr => ?_⟩
  have hs : c.snapshot.isSome = true := by
    induction hr with
    | refl => rfl
    | tail _ hstep _ => exact step_snapshot_isSome hstep
  exact increment_isSome_of_connected hs m'

/-- Witness for C8: a fresh context fails both operations; immediately
after `connect` an increment succeeds. -/
theorem C8_connect_contract_witness :
    MetricsContext.new.increment (Counter "x" 1) = none ∧
    MetricsContext.new.take_snapshot = none ∧
    ((MetricsContext.new.connect []).increment (Counter "x" 1)).isSome = true :=
  ⟨(C8_connect_contract (Counter "x" 1) (Counter "x" 1) []
      (MetricsContext.new.connect [])).1,
   (C8_connect_contract (Counter "x" 1) (Counter "x" 1) []
      (MetricsContext.new.connect [])).2.1,
   (C8_connect_contract (Counter "x" 1) (Counter "x" 1) []
      (MetricsContext.new.connect [])).2.2 (Reachable.refl _)⟩

lemma inc_tx_isSome {b c' : MetricsContext} {m : Metric}
    (hinc : b.increment m = some c') : c'.tx.isSome = b.tx.isSome := by
  cases hb : b.snapshot with
  | none =>
      simp only [MetricsContext.increment, hb] at hinc
      exact Option.noConfusion hinc
  | some s =>
      simp only [MetricsContext.increment, hb] at hinc
      by_cases hf : ((s.increment m).2 && b.tx.isSome) = true
      · rw [if_pos hf] at hinc
        simp only [Option.some.injEq] at hinc
        rw [← hinc]
        simp
      · rw [if_neg hf] at hinc
        simp only [Option.some.injEq] at hinc
        rw [← hinc]

lemma take_tx_eq {b c' : MetricsContext} {out : Snapshot}
    (htake : b.take_snapshot = some (out, c')) :
    c'.tx = b.tx ∧ b.snapshot.isSome = true := by
  unfold MetricsContext.take_snapshot at htake
  rw [Option.map_eq_some'] at htake
  obtain ⟨s, hs, hf⟩ := htake
  have h2 : c' = ⟨some (s.take).2, b.tx⟩ := (congrArg Prod.snd hf).symm
  exact ⟨by rw [h2], by rw [hs]; rfl⟩

lemma inc_requires_snapshot {b c' : MetricsContext} {m : Metric}
    (hinc : b.increment m = some c') : b.snapshot.isSome = true := by
  cases hb : b.snapshot with
  | none =>
      simp only [MetricsContext.increment, hb] at hinc
      exact Option.noConfusion hinc
  | some s => rfl

/-- C9: in every context state reachable from `new` by `connect`,
`increment` and `take_snapshot` operations, the snapshot holder and the
sender holder are populated together (`isSome` iff `isSome`); both are
`None` at creation and both are `Some` right after `connect`. -/
theorem C9_holders_invariant (c c0 : MetricsContext) (ch : List Snapshot) :
    MetricsContext.new.snapshot = none ∧
    MetricsContext.new.tx = none ∧
    (c0.connect ch).snapshot.isSome = true ∧
    (c0.connect ch).tx.isSome = true ∧
    (Reachable MetricsContext.new c → (c.snapshot.isSome ↔ c.tx.isSome)) := by
  refine ⟨rfl, rfl, rfl, rfl, fun hr => ?_⟩
  have hinv : c = MetricsContext.new ∨
      (c.snapshot.isSome = true ∧ c.tx.isSome = true) := by
    induction hr with
    | refl => exact Or.inl rfl
    | tail _ hstep ih =>
        right
        refine ⟨step_snapshot_isSome hstep, ?_⟩
        cases hstep with
        | conn ch2 => rfl
        | inc m c' hinc =>
            rw [inc_tx_isSome hinc]
            rcases ih with rfl | ⟨_, htx⟩
            · exact absurd (inc_requires_snapshot hinc) (by simp [MetricsContext.new])
            · exact htx
        | take out c' htake =>
            obtain ⟨htx, hsnap⟩ := take_tx_eq htake
            rw [htx]
            rcases ih with rfl | ⟨_, htx2⟩
            · exact absurd hsnap (by simp [MetricsContext.new])
            · exact htx2
  rcases hinv with rfl | ⟨h1, h2⟩
  · exact Iff.rfl
  · simp [h1, h2]

/-- Witness for C9: the invariant instantiated at the freshly created
context, where both holders are `None`. -/
theorem C9_holders_invariant_witness :
    (MetricsContext.new.snapshot.isSome ↔ MetricsContext.new.tx.isSome) ∧
    MetricsContext.new.snapshot = none ∧
    (MetricsContext.new.connect []).tx.isSome = true :=
  ⟨(C9_holders_invariant MetricsContext.new MetricsContext.new []).2.2.2.2
      (Reachable.refl _),
   (C9_holders_invariant MetricsContext.new MetricsContext.new []).1,
   (C9_holders_invariant MetricsContext.new MetricsContext.new []).2.2.2.1⟩

lemma countL_cons (q : OwnedMetricName) (c : Nat) (l : List (OwnedMetricName × Nat))
    (n : OwnedMetricName) :
    countL ((q, c) :: l) n =
      (if OwnedMetricName.same q n = true then c else 0) + countL l n := by
  unfold countL
  rw [List.filter_cons]
  by_cases h : OwnedMetricName.same q n = true
  · simp [h]
  · simp [h]

lemma zip_all_same_congr :
    ∀ (l₁ l₂ : List (Option (String × Nat × LabelValue))), l₁.length = l₂.length →
      ((l₁.zip l₂).all fun xy =>
        match xy with
        | (some x, some y) => x.1 == y.1 && x.2.1 == y.2.1
        | (none, none) => true
        | _ => false) = true →
      ∀ l₃ : List (Option (String × Nat × LabelValue)),
        ((l₁.zip l₃).all fun xy =>
          match xy with
          | (some x, some y) => x.1 == y.1 && x.2.1 == y.2.1
          | (none, none) => true
          | _ => false) =
        ((l₂.zip l₃).all fun xy =>
          match xy with
          | (some x, some y) => x.1 == y.1 && x.2.1 == y.2.1
          | (none, none) => true
          | _ => false)
  | [], [], _, _ => fun _ => rfl
  | [], _ :: _, h, _ => by simp at h
  | _ :: _, [], h, _ => by simp at h
  | x :: l₁, y :: l₂, h, hall => fun l₃ => by
      cases l₃ with
      | nil => rfl
      | cons z l₃ =>
          simp only [List.zip_cons_cons, List.all_cons, Bool.and_eq_true] at hall
          obtain ⟨hxy, hrest⟩ := hall
          have ihz := zip_all_same_congr l₁ l₂ (by simpa using h) hrest l₃
          simp only [List.zip_cons_cons, List.all_cons, ihz]
          congr 1
          rcases x with _ | x <;> rcases y with _ | y
          · rfl
          · exact absurd hxy (by simp)
          · exact absurd hxy (by simp)
          · simp only [Bool.and_eq_true, beq_iff_eq] at hxy
            obtain ⟨h1, h2⟩ := hxy
            rcases z with _ | z
            · rfl
            · simp [h1, h2]

lemma same_congr (q k : OwnedMetricName) (hlen : q.labels.length = k.labels.length)
    (hqk : OwnedMetricName.same q k = true) (n : OwnedMetricName) :
    OwnedMetricName.same q n = OwnedMetricName.same k n := by
  unfold OwnedMetricName.same at hqk ⊢
  rw [Bool.and_eq_true] at hqk
  obtain ⟨hkey, hall⟩ := hqk
  have hk : q.key = k.key := by simpa using hkey
  rw [hk, zip_all_same_congr q.labels k.labels hlen hall n.labels]

lemma countL_mergeEntry (l : List (OwnedMetricName × Nat)) (k : OwnedMetricName)
    (v : Nat) (n : OwnedMetricName) (hl : ∀ e ∈ l, e.1.labels.length = 5)
    (hk : k.labels.length = 5) :
    countL (mergeEntry l k v) n =
      countL l n + (if OwnedMetricName.same k n = true then v else 0) := by
  induction l with
  | nil =>
      show countL [(k, 0 + v)] n = _
      rw [countL_cons]
      by_cases h : OwnedMetricName.same k n = true
      · simp [h, countL]
      · simp [h, countL]
  | cons e rest ih =>
      obtain ⟨q, c⟩ := e
      have hq : q.labels.length = 5 := hl (q, c) (List.mem_cons_self _ _)
      have hrest : ∀ e ∈ rest, e.1.labels.length = 5 :=
        fun e hm => hl e (List.mem_cons_of_mem _ hm)
      by_cases hqk : OwnedMetricName.same q k = true
      · have hsame : OwnedMetricName.same q n = OwnedMetricName.same k n :=
          same_congr q k (by rw [hq, hk]) hqk n
        rw [show mergeEntry ((q, c) :: rest) k v = (q, c + v) :: rest from by
          simp [mergeEntry, hqk]]
        rw [countL_cons, countL_cons, hsame]
        by_cases hn : OwnedMetricName.same k n = true
        · simp [hn]
          omega
        · simp [hn]
      · have hqk' : OwnedMetricName.same q k = false := by simpa using hqk
        rw [show mergeEntry ((q, c) :: rest) k v = (q, c) :: mergeEntry rest k v from by
          simp [mergeEntry, hqk']]
        rw [countL_cons, countL_cons, ih hrest]
        omega

lemma mergeEntry_len5 (l : List (OwnedMetricName × Nat)) (k : OwnedMetricName)
    (v : Nat) (hl : ∀ e ∈ l, e.1.labels.length = 5) (hk : k.labels.length = 5) :
    ∀ e ∈ mergeEntry l k v, e.1.labels.length = 5 := by
  induction l with
  | nil =>
      intro e hm
      rcases List.mem_singleton.mp hm with rfl
      exact hk
  | cons e0 rest ih =>
      obtain ⟨q, c⟩ := e0
      intro e hm
      by_cases hqk : OwnedMetricName.same q k = true
      · rw [show mergeEntry ((q, c) :: rest) k v = (q, c + v) :: rest from by
          simp [mergeEntry, hqk]] at hm
        rcases List.mem_cons.mp hm with rfl | hm'
        · exact hl (q, c) (List.mem_cons_self _ _)
        · exact hl _ (List.mem_cons_of_mem _ hm')
      · have hqk' : OwnedMetricName.same q k = false := by simpa using hqk
        rw [show mergeEntry ((q, c) :: rest) k v = (q, c) :: mergeEntry rest k v from by
          simp [mergeEntry, hqk']] at hm
        rcases List.mem_cons.mp hm with rfl | hm'
        · exact hl (q, c) (List.mem_cons_self _ _)
        · exact ih (fun e hm => hl e (List.mem_cons_of_mem _ hm)) e hm'

lemma countL_foldl_mergeEntry :
    ∀ (other l : List (OwnedMetricName × Nat)) (n : OwnedMetricName),
      (∀ e ∈ l, e.1.labels.length = 5) → (∀ e ∈ other, e.1.labels.length = 5) →
      countL (other.foldl (fun acc e => mergeEntry acc e.1 e.2) l) n =
        countL l n + countL other n
  | [], l, n, _, _ => by simp [countL]
  | (k, v) :: rest, l, n, hl, ho => by
      rw [List.foldl_cons]
      have hk : k.labels.length = 5 := ho (k, v) (List.mem_cons_self _ _)
      have hrest : ∀ e ∈ rest, e.1.labels.length = 5 :=
        fun e hm => ho e (List.mem_cons_of_mem _ hm)
      rw [countL_foldl_mergeEntry rest (mergeEntry l k v) n
        (mergeEntry_len5 l k v hl hk) hrest]
      rw [countL_mergeEntry l k v n hl hk, countL_cons]
      omega

lemma foldl_mergeEntry_len5 :
    ∀ (other l : List (OwnedMetricName × Nat)),
      (∀ e ∈ l, e.1.labels.length = 5) → (∀ e ∈ other, e.1.labels.length = 5) →
      ∀ e ∈ other.foldl (fun acc e => mergeEntry acc e.1 e.2) l,
        e.1.labels.length = 5
  | [], _, hl, _ => hl
  | (k, v) :: rest, l, hl, ho =>
      foldl_mergeEntry_len5 rest (mergeEntry l k v)
        (mergeEntry_len5 l k v hl (ho (k, v) (List.mem_cons_self _ _)))
        (fun e hm => ho e (List.mem_cons_of_mem _ hm))

lemma merge_countOf (s t : MetricStore) (n : OwnedMetricName)
    (hs : ∀ e ∈ s.buf, e.1.labels.length = 5)
    (ht : ∀ e ∈ t.buf, e.1.labels.length = 5) :
    (s.merge t).countOf n = s.countOf n + t.countOf n :=
  countL_foldl_mergeEntry t.buf s.buf n hs ht

lemma merge_len5 (s t : MetricStore)
    (hs : ∀ e ∈ s.buf, e.1.labels.length = 5)
    (ht : ∀ e ∈ t.buf, e.1.labels.length = 5) :
    ∀ e ∈ (s.merge t).buf, e.1.labels.length = 5 :=
  foldl_mergeEntry_len5 t.buf s.buf hs ht

/-- C4: merging stores adds counts per identity — `merge` folds each entry
of the other store into the weakly-equal entry of the receiver (inserting
it with initial count `0` first when absent) — so for stores whose entries
all carry the source's five label slots, the count of every identity after
merging three stores in any order and grouping is the sum of that
identity's counts across the three stores, independent of the merge
order. -/
theorem C4_merge_order_independent (A B C : MetricStore) (n : OwnedMetricName)
    (hA : ∀ e ∈ A.buf, e.1.labels.length = 5)
    (hB : ∀ e ∈ B.buf, e.1.labels.length = 5)
    (hC : ∀ e ∈ C.buf, e.1.labels.length = 5) :
    (A.merge B).countOf n = A.countOf n + B.countOf n ∧
    ((A.merge B).merge C).countOf n = A.countOf n + B.countOf n + C.countOf n ∧
    (A.merge (B.merge C)).countOf n = A.countOf n + B.countOf n + C.countOf n ∧
    ((B.merge A).merge C).countOf n = A.countOf n + B.countOf n + C.countOf n ∧
    ((B.merge C).merge A).countOf n = A.countOf n + B.countOf n + C.countOf n ∧
    ((C.merge A).merge B).countOf n = A.countOf n + B.countOf n + C.countOf n ∧
    ((C.merge B).merge A).countOf n = A.countOf n + B.countOf n + C.countOf n := by
  refine ⟨merge_countOf A B n hA hB, ?_, ?_, ?_, ?_, ?_, ?_⟩
  · rw [merge_countOf _ C n (merge_len5 A B hA hB) hC, merge_countOf A B n hA hB]
  · rw [merge_countOf A _ n hA (merge_len5 B C hB hC), merge_countOf B C n hB hC]
    omega
  · rw [merge_countOf _ C n (merge_len5 B A hB hA) hC, merge_countOf B A n hB hA]
    omega
  · rw [merge_countOf _ A n (merge_len5 B C hB hC) hA, merge_countOf B C n hB hC]
    omega
  · rw [merge_countOf _ B n (merge_len5 C A hC hA) hB, merge_countOf C A n hC hA]
    omega
  · rw [merge_countOf _ A n (merge_len5 C B hC hB) hA, merge_countOf C B n hC hB]
    omega

/-- Witness for C4: two singleton stores over the same no-label identity
and an empty store, merged left-to-right. -/
theorem C4_merge_order_independent_witness :
    ((MetricStore.mk [((MetricName.with_no_labels "a").clone_into_owned, 2)]).merge
        (MetricStore.mk [((MetricName.with_no_labels "a").clone_into_owned, 3)])).countOf
        ((MetricName.with_no_labels "a").clone_into_owned) =
      (MetricStore.mk [((MetricName.with_no_labels "a").clone_into_owned, 2)]).countOf
        ((MetricName.with_no_labels "a").clone_into_owned) +
      (MetricStore.mk [((MetricName.with_no_labels "a").clone_into_owned, 3)]).countOf
        ((MetricName.with_no_labels "a").clone_into_owned) :=
  (C4_merge_order_independent
    (MetricStore.mk [((MetricName.with_no_labels "a").clone_into_owned, 2)])
    (MetricStore.mk [((MetricName.with_no_labels "a").clone_into_owned, 3)])
    (MetricStore.mk [])
    ((MetricName.with_no_labels "a").clone_into_owned)
    (by decide) (by decide) (by decide)).1

end MetricProto

